import Mathlib

/-!
Verification development for the `agent-backup` backup codec
(`src/index.js`, class `AgentBackup`, plus its Collector helpers).

The JavaScript source is embedded shallowly:

* Paths are modelled as lists of components (`PathC`); `path.join` /
  `path.resolve` normalisation is the usual stack algorithm (`normRel`),
  so a stored relative path that escapes the target root normalises to a
  list whose head is `".."`.
* The filesystem is a partial map from normalised relative locations to
  file contents (`FS`); `readFile` is lookup, `writeFile` is `updateFS`,
  `mkdir` is a no-op on this flat map.
* `Date().toISOString()` results and `randomBytes` outcomes are passed in
  as explicit parameters, making every operation a pure function.
* Node's `crypto` module is external to the repository.  SHA-256 (used by
  `fingerprint`) is implemented for real below.  The aes-256-gcm AEAD used
  by `_encrypt` / `_decrypt` is modelled symbolically: a ciphertext is the
  plaintext tagged with the derived key, and the authentication tag records
  exactly the data GCM authenticates (key, IV, ciphertext), so decryption
  succeeds precisely on untampered ciphertexts under the right key.
-/

/-! ## Paths and the filesystem model -/

/-- A filesystem path as a list of components; `".."` components model
traversal. -/
abbrev PathC := List String

/-- One step of the `path.join`-style normalisation stack algorithm: the
accumulator holds the already-normalised components in reverse. -/
def normStep (stack : List String) (c : String) : List String :=
  if c = "" ∨ c = "." then stack
  else if c = ".." then
    match stack with
    | [] => [".."]
    | top :: rest => if top = ".." then c :: top :: rest else rest
  else c :: stack

/-- Normalise a relative path the way `path.join(root, p)` resolves it
under `root`: `"."` and empty components vanish, `".."` pops a previous
component, and leading `".."` components survive (meaning the location is
outside the root). -/
def normRel (p : PathC) : PathC := (p.foldl normStep []).reverse

/-- A normalised relative location lies outside the root it was resolved
against exactly when it still starts with a `".."` component. -/
def escapesRoot (p : PathC) : Bool := p.head? = some ".."

/-- The filesystem as a partial map from normalised relative locations to
file contents (text). -/
abbrev FS := PathC → Option String

/-- `writeFile`: update the filesystem at one location. -/
def updateFS (fs : FS) (loc : PathC) (c : String) : FS :=
  fun p => if p = loc then some c else fs p

/-- The empty target directory. -/
def emptyFS : FS := fun _ => none

/-- Render a raw path (as supplied by the caller) back to the string form
used in the collector's warning messages. -/
def rawPathString (p : PathC) : String := String.intercalate "/" p

/-! ## SHA-256 (Node `crypto.createHash('sha256')`)

A direct executable implementation over `Nat`, with 32-bit words kept
normalised via `% 2 ^ 32`. -/

/-- Truncate to a 32-bit word. -/
def w32 (n : Nat) : Nat := n % 4294967296

/-- Right-rotate a 32-bit word by `b` bits (for `0 < b < 32`, `n < 2^32`). -/
def rotr32 (b n : Nat) : Nat := (n >>> b) + ((n % (1 <<< b)) <<< (32 - b))

/-- Bitwise complement of a 32-bit word. -/
def not32 (n : Nat) : Nat := 4294967295 - n

/-- SHA-256 `Ch` function. -/
def shaCh (x y z : Nat) : Nat := (x &&& y) ^^^ (not32 x &&& z)

/-- SHA-256 `Maj` function. -/
def shaMaj (x y z : Nat) : Nat := (x &&& y) ^^^ (x &&& z) ^^^ (y &&& z)

/-- SHA-256 big sigma 0. -/
def bigSigma0 (x : Nat) : Nat := rotr32 2 x ^^^ rotr32 13 x ^^^ rotr32 22 x

/-- SHA-256 big sigma 1. -/
def bigSigma1 (x : Nat) : Nat := rotr32 6 x ^^^ rotr32 11 x ^^^ rotr32 25 x

/-- SHA-256 small sigma 0. -/
def smallSigma0 (x : Nat) : Nat := rotr32 7 x ^^^ rotr32 18 x ^^^ (x >>> 3)

/-- SHA-256 small sigma 1. -/
def smallSigma1 (x : Nat) : Nat := rotr32 17 x ^^^ rotr32 19 x ^^^ (x >>> 10)

/-- The 64 SHA-256 round constants, in decimal. -/
def shaK : List Nat :=
  [1116352408, 1899447441, 3049323471, 3921009573, 961987163,
   1508970993, 2453635748, 2870763221, 3624381080, 310598401,
   607225278, 1426881987, 1925078388, 2162078206, 2614888103,
   3248222580, 3835390401, 4022224774, 264347078, 604807628,
   770255983, 1249150122, 1555081692, 1996064986, 2554220882,
   2821834349, 2952996808, 3210313671, 3336571891, 3584528711,
   113926993, 338241895, 666307205, 773529912, 1294757372,
   1396182291, 1695183700, 1986661051, 2177026350, 2456956037,
   2730485921, 2820302411, 3259730800, 3345764771, 3516065817,
   3600352804, 4094571909, 275423344, 430227734, 506948616,
   659060556, 883997877, 958139571, 1322822218, 1537002063,
   1747873779, 1955562222, 2024104815, 2227730452, 2361852424,
   2428436474, 2756734187, 3204031479, 3329325298]

/-- The SHA-256 initial hash state, in decimal. -/
def shaH0 : List Nat :=
  [1779033703, 3144134277, 1013904242, 2773480762,
   1359893119, 2600822924, 528734635, 1541459225]

/-- SHA-256 padding: append `0x80`, zeros to 56 mod 64, then the bit length
as 8 big-endian bytes. -/
def sha256pad (msg : List Nat) : List Nat :=
  let l := msg.length
  let zeros := (119 - l % 64) % 64
  let bitLen := 8 * l
  msg ++ [128] ++ List.replicate zeros 0 ++
    ([56, 48, 40, 32, 24, 16, 8, 0].map fun s => (bitLen >>> s) % 256)

/-- Group a padded byte stream into big-endian 32-bit words. -/
def bytesToWords : List Nat → List Nat
  | b0 :: b1 :: b2 :: b3 :: rest =>
    (((b0 * 256 + b1) * 256 + b2) * 256 + b3) :: bytesToWords rest
  | _ => []

/-- Split a word stream into 16-word blocks. -/
def wordsToBlocks : List Nat → List (List Nat)
  | w0 :: w1 :: w2 :: w3 :: w4 :: w5 :: w6 :: w7 ::
    w8 :: w9 :: w10 :: w11 :: w12 :: w13 :: w14 :: w15 :: rest =>
    [w0, w1, w2, w3, w4, w5, w6, w7, w8, w9, w10, w11, w12, w13, w14, w15] ::
      wordsToBlocks rest
  | _ => []

/-- One message-schedule extension step on the reversed schedule. -/
def scheduleStep (acc : List Nat) : List Nat :=
  w32 (smallSigma1 (acc.getD 1 0) + acc.getD 6 0 +
       smallSigma0 (acc.getD 14 0) + acc.getD 15 0) :: acc

/-- Extend a 16-word block to the full 64-word message schedule. -/
def schedule (block : List Nat) : List Nat :=
  (scheduleStep^[48] block.reverse).reverse

/-- One SHA-256 compression round on the 8-word working state. -/
def compressStep : List Nat → Nat × Nat → List Nat
  | [a, b, c, d, e, f, g, h], (k, w) =>
    let t1 := w32 (h + bigSigma1 e + shaCh e f g + k + w)
    let t2 := w32 (bigSigma0 a + shaMaj a b c)
    [w32 (t1 + t2), a, b, c, w32 (d + t1), e, f, g]
  | s, _ => s

/-- Process one 16-word block: run 64 rounds and add into the chaining
state. -/
def sha256block (state : List Nat) (block : List Nat) : List Nat :=
  let final := ((shaK.zip (schedule block)).foldl compressStep state)
  (state.zip final).map fun p => w32 (p.1 + p.2)

/-- SHA-256 of a byte list, as the 8-word final state. -/
def sha256words (msg : List Nat) : List Nat :=
  (wordsToBlocks (bytesToWords (sha256pad msg))).foldl sha256block shaH0

/-- A single lowercase hex digit. -/
def hexDigit (n : Nat) : Char :=
  if n < 10 then Char.ofNat (48 + n) else Char.ofNat (87 + n)

/-- A 32-bit word as 8 lowercase hex characters. -/
def wordToHex (n : Nat) : String :=
  String.mk ([28, 24, 20, 16, 12, 8, 4, 0].map fun s => hexDigit ((n >>> s) % 16))

/-- `createHash('sha256').update(msg).digest('hex')` on a byte list. -/
def sha256hex (msg : List Nat) : String :=
  String.join ((sha256words msg).map wordToHex)

/-- UTF-8 bytes of a string; the embedding only feeds it ASCII, where this
agrees with `Char.toNat` per character. -/
def strBytes (s : String) : List Nat := s.toList.map Char.toNat

example : sha256hex (strBytes "abc") =
    "ba7816bf8f01cfea414140de5dae2223b00361a396177a9cb410ff61f20015ad" := by
  decide

/-! ## Data model (backup format of `src/index.js`) -/

/-- A collected file: the raw relative path as supplied by the caller, its
text content, and the `updated` timestamp stamped at read time. -/
structure FileRecord where
  path : PathC
  content : String
  updated : String
deriving DecidableEq

/-- Symbolic model of the key `_deriveKey` produces: the real code hashes
`password + salt.toString('hex')` with SHA-256; the model records the
password and salt hex injectively, so distinct passwords give distinct keys
for a fixed salt (true of the real derivation up to SHA-256 collisions). -/
structure DerivedKey where
  password : String
  saltHex : String
deriving DecidableEq

/-- Symbolic aes-256-gcm ciphertext: the serialized plaintext section (a
`files` list) tagged with the key it was encrypted under. -/
structure SymCipher where
  key : DerivedKey
  files : List FileRecord
deriving DecidableEq

/-- Symbolic aes-256-gcm authentication tag: GCM authenticates the
ciphertext under the key and IV, so the model tag records exactly that
triple; any change to key, IV or ciphertext invalidates the tag. -/
structure GcmTag where
  key : DerivedKey
  iv : String
  ciphertext : SymCipher
deriving DecidableEq

/-- The encrypted form of a file section, mirroring the object `_encrypt`
returns (`encrypted: true` is the variant tag of `FileSection`). -/
structure EncSection where
  algorithm : String
  iv : String
  salt : String
  authTag : GcmTag
  data : SymCipher
deriving DecidableEq

/-- The credentials or memory half of an archive: plain `files` list or the
encrypted object. -/
inductive FileSection where
  | plain (files : List FileRecord)
  | enc (e : EncSection)
deriving DecidableEq

/-- Field access `section.files`: defined on the plain form, `undefined`
(here `none`) on the encrypted form. -/
def FileSection.filesOf : FileSection → Option (List FileRecord)
  | .plain files => some files
  | .enc _ => none

/-- The JavaScript `section.files?.length || 0` used for the restored
counts. -/
def jsFilesCount : FileSection → Nat
  | .plain files => files.length
  | .enc _ => 0

/-- The `agent` block of an archive.  `none` fields model `undefined`
(omitted by `JSON.stringify`); `metadata` values are restricted to strings
in the model. -/
structure Agent where
  name : Option String
  email : Option String
  metadata : Option (List (String × String))
  created : Option String
deriving DecidableEq

/-- A backup archive, mirroring the top-level object `export` builds.
`encrypted` is `none` when the flag is absent. -/
structure Archive where
  version : String
  exported : String
  agent : Agent
  credentials : FileSection
  memory : FileSection
  platforms : List (String × String)
  encrypted : Option Bool
deriving DecidableEq

/-- The distinct failures `import` / `_decrypt` can raise: the two explicit
`throw new Error(...)` sites, the aes-256-gcm authentication failure thrown
by `decipher.final()` (or malformed ciphertext fields), and the `TypeError`
from reading `salt`/`iv` hex off a section that has none. -/
inductive ImportError where
  | unsupportedVersion (v : String)
  | missingPassword
  | decryptFailed
  | malformedSection
deriving DecidableEq

/-- The summary object `import` returns. -/
structure ImportResult where
  agent : Agent
  restoredCredentials : Nat
  restoredMemory : Nat
deriving DecidableEq

/-- The `AgentBackup` instance state set by the constructor (the working
directory is implicit in the filesystem maps passed to each operation). -/
structure AgentBackup where
  encryption : Bool
  password : Option String
deriving DecidableEq

/-- JavaScript truthiness of `this.password`: `null`/`undefined` and the
empty string are falsy. -/
def truthyStr : Option String → Bool
  | none => false
  | some s => !(s == "")

/-- JavaScript truthiness of the optional `backup.encrypted` flag. -/
def isTruthy : Option Bool → Bool
  | none => false
  | some b => b

/-- The supported backup schema version (`BACKUP_VERSION`). -/
def BACKUP_VERSION : String := "1.0"

/-! ## Collector (`_collectCredentials` / `_collectMemory`) -/

/-- The shared loop body of the two collectors: read each path in order
(resolved against the working directory, i.e. at its normalised location),
keep a record per successful read, and emit a warning (with the given
message prefix) for each unreadable path, never failing. -/
def collectText (fs : FS) (now : String) (label : String) :
    List PathC → List FileRecord × List String
  | [] => ([], [])
  | p :: rest =>
    let tail := collectText fs now label rest
    match fs (normRel p) with
    | some c => (⟨p, c, now⟩ :: tail.1, tail.2)
    | none => (tail.1, (label ++ rawPathString p) :: tail.2)

/-- `_collectCredentials`: records plus `Failed to read credential:`
warnings. -/
def AgentBackup._collectCredentials (fs : FS) (now : String)
    (paths : List PathC) : List FileRecord × List String :=
  collectText fs now "Failed to read credential: " paths

/-- `_collectMemory`: records plus `Failed to read memory:` warnings. -/
def AgentBackup._collectMemory (fs : FS) (now : String)
    (paths : List PathC) : List FileRecord × List String :=
  collectText fs now "Failed to read memory: " paths

/-! ## Encryption (`_deriveKey`, `_encrypt`, `_decrypt`) -/

/-- `_deriveKey(password, salt)` — symbolic (see `DerivedKey`). -/
def AgentBackup._deriveKey (password : String) (salt : String) : DerivedKey :=
  ⟨password, salt⟩

/-- `_encrypt(data)`: fresh `iv` and `salt` are passed in explicitly (the
outcomes of the two `randomBytes` calls, as hex); the key is derived from
`this.password`, and the ciphertext/auth tag follow the symbolic GCM
model. -/
def AgentBackup._encrypt (self : AgentBackup) (iv salt : String)
    (files : List FileRecord) : EncSection :=
  let key := AgentBackup._deriveKey (self.password.getD "") salt
  { algorithm := "aes-256-gcm", iv := iv, salt := salt,
    authTag := ⟨key, iv, ⟨key, files⟩⟩, data := ⟨key, files⟩ }

/-- `_decrypt(encrypted)`: re-derive the key from `this.password` and the
stored salt, check the authentication tag, and recover the plain section;
tag mismatch (from a changed password, salt, IV, ciphertext or tag) throws
the aes-256-gcm authentication error.  Reading the hex fields off a section
that is not in encrypted form throws a `TypeError`. -/
def AgentBackup._decrypt (self : AgentBackup) :
    FileSection → Except ImportError FileSection
  | .plain _ => .error .malformedSection
  | .enc e =>
    let key := AgentBackup._deriveKey (self.password.getD "") e.salt
    if e.data.key = key ∧ e.authTag = ⟨key, e.iv, e.data⟩ then
      .ok (.plain e.data.files)
    else .error .decryptFailed

/-! ## Codec — export -/

/-- The named arguments of `export`. -/
structure ExportArgs where
  name : Option String
  email : Option String
  metadata : List (String × String)
  credentialsPaths : List PathC
  memoryPaths : List PathC

/-- `export`: collect both sections, build the archive (with
`created: metadata.created || now`), and encrypt both sections only when
`this.encryption && this.password` is truthy — silently leaving the archive
plain otherwise.  `now` is the `toISOString` instant; `ivC/saltC/ivM/saltM`
are the `randomBytes` outcomes of the two `_encrypt` calls. -/
def AgentBackup.exportBackup (self : AgentBackup) (fs : FS) (now : String)
    (args : ExportArgs) (ivC saltC ivM saltM : String) : Archive :=
  let credentials := (AgentBackup._collectCredentials fs now args.credentialsPaths).1
  let memory := (AgentBackup._collectMemory fs now args.memoryPaths).1
  let created := match args.metadata.lookup "created" with
    | some c => if c = "" then now else c
    | none => now
  let base : Archive :=
    { version := BACKUP_VERSION, exported := now,
      agent := { name := args.name, email := args.email,
                 metadata := some args.metadata, created := some created },
      credentials := .plain credentials, memory := .plain memory,
      platforms := [], encrypted := none }
  if self.encryption && truthyStr self.password then
    { base with
      credentials := .enc (self._encrypt ivC saltC credentials),
      memory := .enc (self._encrypt ivM saltM memory),
      encrypted := some true }
  else base

/-! ## Codec — import -/

/-- One file of the restore loop: `readFile` probes the resolved path; when
`overwrite` is false and the file exists it is skipped, otherwise the
content is written (after `mkdir -p` of the parent, a no-op on the flat
map). -/
def restoreFile (overwrite : Bool) (fs : FS) (f : FileRecord) : FS :=
  if !overwrite && (fs (normRel f.path)).isSome then fs
  else updateFS fs (normRel f.path) f.content

/-- The restore loop over one section's records, in stored order. -/
def restoreSection (overwrite : Bool) (fs : FS) (files : List FileRecord) : FS :=
  files.foldl (restoreFile overwrite) fs

/-- The decrypt-if-needed block of `import` (lines between the version gate
and the restore loops): when `backup.encrypted` is truthy, require a truthy
password and decrypt the credentials and then the memory section; otherwise
pass both sections through unchanged. -/
def decryptPhase (self : AgentBackup) (a : Archive) :
    Except ImportError (FileSection × FileSection) :=
  if isTruthy a.encrypted then
    if truthyStr self.password then
      match self._decrypt a.credentials with
      | .error e => .error e
      | .ok c =>
        match self._decrypt a.memory with
        | .error e => .error e
        | .ok m => .ok (c, m)
    else .error .missingPassword
  else .ok (a.credentials, a.memory)

/-- `import`: version gate, then the decrypt phase (password check and
decryption of both sections) — all before any write — then the two restore
loops (credentials first), returning the filesystem as it stands together
with the outcome; the restored counts are `files?.length || 0` of the
post-decryption sections. -/
def AgentBackup.importBackup (self : AgentBackup) (a : Archive)
    (overwrite : Bool) (fs : FS) :
    FS × Except ImportError ImportResult :=
  if a.version ≠ BACKUP_VERSION then
    (fs, .error (.unsupportedVersion a.version))
  else
    match decryptPhase self a with
    | .error e => (fs, .error e)
    | .ok (credSec, memSec) =>
      let fs1 := match credSec.filesOf with
        | some files => restoreSection overwrite fs files
        | none => fs
      let fs2 := match memSec.filesOf with
        | some files => restoreSection overwrite fs1 files
        | none => fs1
      (fs2, .ok { agent := a.agent,
                  restoredCredentials := jsFilesCount credSec,
                  restoredMemory := jsFilesCount memSec })

/-! ## Fingerprint -/

/-- JSON string escaping as `JSON.stringify` performs it on the characters
the embedding feeds it (quote, backslash, and ASCII control characters). -/
def jsonEscapeChar (c : Char) : String :=
  if c = '"' then "\\\""
  else if c = '\\' then "\\\\"
  else if c = '\n' then "\\n"
  else if c = '\r' then "\\r"
  else if c = '\t' then "\\t"
  else if c.toNat < 32 then
    "\\u00" ++ String.mk [hexDigit (c.toNat / 16), hexDigit (c.toNat % 16)]
  else String.mk [c]

/-- Escape a whole string for JSON. -/
def jsonEscape (s : String) : String :=
  String.join (s.toList.map jsonEscapeChar)

/-- A JSON string literal. -/
def jsonStr (s : String) : String := "\"" ++ jsonEscape s ++ "\""

/-- `JSON.stringify` of a string-valued object in insertion order. -/
def stringifyStrMap (m : List (String × String)) : String :=
  "\x7b" ++
    String.intercalate "," (m.map fun kv => jsonStr kv.1 ++ ":" ++ jsonStr kv.2) ++
  "\x7d"

/-- `JSON.stringify(backup.agent)`: fields in insertion order
(`name`, `email`, `metadata`, `created`), `undefined` fields omitted. -/
def stringifyAgent (ag : Agent) : String :=
  let fields : List (Option String) :=
    [ag.name.map (fun v => "\"name\":" ++ jsonStr v),
     ag.email.map (fun v => "\"email\":" ++ jsonStr v),
     ag.metadata.map (fun m => "\"metadata\":" ++ stringifyStrMap m),
     ag.created.map (fun v => "\"created\":" ++ jsonStr v)]
  "\x7b" ++ String.intercalate "," (fields.filterMap id) ++ "\x7d"

/-- `JSON.stringify({agent: backup.agent, exported: backup.exported})` —
the exact digest input of `fingerprint`. -/
def fingerprintInput (a : Archive) : String :=
  "\x7b\"agent\":" ++ stringifyAgent a.agent ++
    ",\"exported\":" ++ jsonStr a.exported ++ "\x7d"

/-- `AgentBackup.fingerprint`: SHA-256 of the serialized
`{agent, exported}` pair, as hex, truncated to 16 characters. -/
def AgentBackup.fingerprint (a : Archive) : String :=
  (sha256hex (strBytes (fingerprintInput a))).take 16

/-! ## Supporting lemmas about the restore loop and the collector -/

/-- Unfolding the restore loop on an empty record list. -/
theorem restoreSection_nil (ov : Bool) (fs : FS) :
    restoreSection ov fs [] = fs := rfl

/-- Unfolding the restore loop on a nonempty record list. -/
theorem restoreSection_cons (ov : Bool) (fs : FS) (f : FileRecord)
    (rest : List FileRecord) :
    restoreSection ov fs (f :: rest) = restoreSection ov (restoreFile ov fs f) rest := rfl

/-- The restore loop never deletes: a location that exists stays existent. -/
theorem restoreSection_isSome_mono (ov : Bool) (files : List FileRecord)
    (fs : FS) (loc : PathC) (h : (fs loc).isSome) :
    ((restoreSection ov fs files) loc).isSome := by
  induction files generalizing fs with
  | nil => exact h
  | cons f rest ih =>
    rw [restoreSection_cons]
    apply ih
    unfold restoreFile updateFS
    split
    · exact h
    · by_cases hp : loc = normRel f.path
      · simp [hp]
      · simpa [hp] using h

/-- A single restore step with `overwrite` false leaves an existing
location untouched. -/
theorem restoreFile_skip (fs : FS) (f : FileRecord) (loc : PathC)
    (h : (fs loc).isSome) : restoreFile false fs f loc = fs loc := by
  unfold restoreFile updateFS
  split
  · rfl
  · next hc =>
    by_cases hp : loc = normRel f.path
    · subst hp
      simp [h] at hc
    · simp [hp]

/-- With `overwrite` false, the whole restore loop leaves an existing
location untouched. -/
theorem restoreSection_skip (files : List FileRecord) (fs : FS) (loc : PathC)
    (h : (fs loc).isSome) :
    restoreSection false fs files loc = fs loc := by
  induction files generalizing fs with
  | nil => rfl
  | cons f rest ih =>
    rw [restoreSection_cons]
    have hstep := restoreFile_skip fs f loc h
    rw [ih (restoreFile false fs f) (by rw [hstep]; exact h), hstep]

/-- The restore loop does not touch locations no record resolves to. -/
theorem restoreSection_frame (ov : Bool) (files : List FileRecord) (fs : FS)
    (loc : PathC) (h : ∀ f ∈ files, normRel f.path ≠ loc) :
    restoreSection ov fs files loc = fs loc := by
  induction files generalizing fs with
  | nil => rfl
  | cons f rest ih =>
    rw [restoreSection_cons,
        ih _ (fun g hg => h g (List.mem_cons_of_mem _ hg))]
    have hf := h f (List.mem_cons_self _ _)
    unfold restoreFile updateFS
    split
    · rfl
    · exact if_neg (fun hq => hf hq.symm)

/-- If every record's content agrees with a reference content map `g`, the
restore loop preserves pointwise agreement with `g` (on locations it
defines). -/
theorem restoreSection_agree (ov : Bool) (g : FS) (files : List FileRecord)
    (fs : FS)
    (hf : ∀ f ∈ files, g (normRel f.path) = some f.content)
    (hfs : ∀ loc, fs loc = none ∨ fs loc = g loc) :
    ∀ loc, restoreSection ov fs files loc = none ∨
      restoreSection ov fs files loc = g loc := by
  induction files generalizing fs with
  | nil => exact hfs
  | cons f rest ih =>
    rw [restoreSection_cons]
    apply ih
    · exact fun q hq => hf q (List.mem_cons_of_mem _ hq)
    · intro loc
      unfold restoreFile updateFS
      split
      · exact hfs loc
      · by_cases hp : loc = normRel f.path
        · right
          simp only [if_pos hp, hp]
          exact (hf f (List.mem_cons_self _ _)).symm
        · simp only [if_neg hp]
          exact hfs loc

/-- After the restore loop, the location of any listed record exists. -/
theorem restoreSection_mem_isSome (ov : Bool) (files : List FileRecord)
    (fs : FS) (f : FileRecord) (hmem : f ∈ files) :
    ((restoreSection ov fs files) (normRel f.path)).isSome := by
  induction files generalizing fs with
  | nil => cases hmem
  | cons q rest ih =>
    rw [restoreSection_cons]
    rcases List.mem_cons.mp hmem with h | h
    · subst h
      apply restoreSection_isSome_mono
      unfold restoreFile updateFS
      split
      · next hc => exact (Bool.and_eq_true _ _ ▸ hc).2
      · simp
    · exact ih _ h

/-- With `overwrite` true, if some record resolves to `loc` and every such
record carries content `B`, the loop ends with `B` at `loc`. -/
theorem restoreSection_overwrite_wins (files : List FileRecord) (fs : FS)
    (loc : PathC) (B : String)
    (hex : ∃ f ∈ files, normRel f.path = loc)
    (hall : ∀ f ∈ files, normRel f.path = loc → f.content = B) :
    restoreSection true fs files loc = some B := by
  induction files generalizing fs with
  | nil => rcases hex with ⟨f, hf, _⟩; cases hf
  | cons q rest ih =>
    rw [restoreSection_cons]
    by_cases hrest : ∃ f ∈ rest, normRel f.path = loc
    · exact ih _ hrest (fun f hf h => hall f (List.mem_cons_of_mem _ hf) h)
    · rcases hex with ⟨f, hf, hloc⟩
      rcases List.mem_cons.mp hf with rfl | hfr
      · rw [restoreSection_frame _ _ _ _ (fun g hg hq => hrest ⟨g, hg, hq⟩)]
        unfold restoreFile updateFS
        rw [if_neg (by simp), if_pos hloc.symm,
            hall f (List.mem_cons_self _ _) hloc]
      · exact absurd ⟨f, hfr, hloc⟩ hrest

/-- Every record the collector produces carries the content the filesystem
holds at its resolved location. -/
theorem collectText_content (fs : FS) (now label : String)
    (paths : List PathC) :
    ∀ f ∈ (collectText fs now label paths).1,
      fs (normRel f.path) = some f.content := by
  induction paths with
  | nil => intro f hf; cases hf
  | cons p rest ih =>
    intro f hf
    unfold collectText at hf
    revert hf
    cases h : fs (normRel p) with
    | some c =>
      intro hf
      rcases List.mem_cons.mp hf with rfl | hfr
      · exact h
      · exact ih f hfr
    | none => exact fun hf => ih f hf

/-- A readable input path yields its record in the collector output. -/
theorem collectText_mem (fs : FS) (now label : String) (paths : List PathC)
    (p : PathC) (c : String) (hp : p ∈ paths)
    (hc : fs (normRel p) = some c) :
    (⟨p, c, now⟩ : FileRecord) ∈ (collectText fs now label paths).1 := by
  induction paths with
  | nil => cases hp
  | cons q rest ih =>
    unfold collectText
    rcases List.mem_cons.mp hp with rfl | hpr
    · rw [hc]
      exact List.mem_cons_self _ _
    · cases h : fs (normRel q) with
      | some d => exact List.mem_cons_of_mem _ (ih hpr)
      | none => exact ih hpr

/-- The collector's records are exactly one per readable path, in input
order. -/
theorem collectText_records (fs : FS) (now label : String)
    (paths : List PathC) :
    (collectText fs now label paths).1 =
      paths.filterMap fun p => (fs (normRel p)).map fun c => ⟨p, c, now⟩ := by
  induction paths with
  | nil => rfl
  | cons p rest ih =>
    unfold collectText
    cases h : fs (normRel p) <;> simp [h, ih]

/-- The collector's warnings are exactly one per unreadable path, in input
order. -/
theorem collectText_warnings (fs : FS) (now label : String)
    (paths : List PathC) :
    (collectText fs now label paths).2 =
      paths.filterMap fun p =>
        match fs (normRel p) with
        | some _ => none
        | none => some (label ++ rawPathString p) := by
  induction paths with
  | nil => rfl
  | cons p rest ih =>
    unfold collectText
    cases h : fs (normRel p) <;> simp [h, ih]

/-- Decrypting an honest encryption under the same stored password recovers
the plain section. -/
theorem decrypt_encrypt (self exporter : AgentBackup) (iv salt : String)
    (files : List FileRecord) (hpw : self.password = exporter.password) :
    self._decrypt (.enc (exporter._encrypt iv salt files)) =
      .ok (.plain files) := by
  simp [AgentBackup._decrypt, AgentBackup._encrypt, AgentBackup._deriveKey, hpw]

/-- On an archive whose `encrypted` flag is not truthy the decrypt phase
passes both sections through. -/
theorem decryptPhase_not_encrypted (self : AgentBackup) (a : Archive)
    (h : isTruthy a.encrypted = false) :
    decryptPhase self a = .ok (a.credentials, a.memory) := by
  unfold decryptPhase
  rw [h]
  rfl

/-- Import of a version-matching plain archive reduces to the two restore
loops, with the counts taken from the archive's record lists. -/
theorem importBackup_plain_eq (self : AgentBackup) (a : Archive) (ov : Bool)
    (fs : FS) (cf mf : List FileRecord)
    (hver : a.version = BACKUP_VERSION) (henc : isTruthy a.encrypted = false)
    (hc : a.credentials = .plain cf) (hm : a.memory = .plain mf) :
    self.importBackup a ov fs =
      (restoreSection ov (restoreSection ov fs cf) mf,
       .ok ⟨a.agent, cf.length, mf.length⟩) := by
  unfold AgentBackup.importBackup
  rw [if_neg (by simp [hver]), decryptPhase_not_encrypted _ _ henc, hc, hm]
  rfl

/-- Import of a version-matching archive whose two sections are honest
encryptions under the importer's stored password reduces to the two restore
loops on the decrypted record lists. -/
theorem importBackup_enc_eq (self exporter : AgentBackup) (a : Archive)
    (ov : Bool) (fs : FS) (cf mf : List FileRecord)
    (ivC saltC ivM saltM : String)
    (hver : a.version = BACKUP_VERSION) (henc : isTruthy a.encrypted = true)
    (hpw : truthyStr self.password = true)
    (hpw2 : self.password = exporter.password)
    (hc : a.credentials = .enc (exporter._encrypt ivC saltC cf))
    (hm : a.memory = .enc (exporter._encrypt ivM saltM mf)) :
    self.importBackup a ov fs =
      (restoreSection ov (restoreSection ov fs cf) mf,
       .ok ⟨a.agent, cf.length, mf.length⟩) := by
  unfold AgentBackup.importBackup
  rw [if_neg (by simp [hver])]
  unfold decryptPhase
  rw [henc, hpw, hc, hm,
      decrypt_encrypt self exporter ivC saltC cf hpw2,
      decrypt_encrypt self exporter ivM saltM mf hpw2]
  rfl

/-! ## Concrete fixtures for the claims -/

/-- Working directory holding one readable credential file. -/
def c2fs : FS := fun p => if p = ["secret.key"] then some "supersecret" else none

/-- Target directory already holding `existing.md`. -/
def c4fs : FS := fun p => if p = ["existing.md"] then some "original content" else none

/-- A plain archive whose only record collides with the existing
`existing.md`. -/
def c4Archive : Archive :=
  ⟨"1.0", "2026-02-08T02:00:00.000Z", ⟨some "Test", none, none, none⟩,
   .plain [], .plain [⟨["existing.md"], "new content", "2026-02-08T02:00:00.000Z"⟩],
   [], none⟩

/-- A version-matching archive whose memory record's relative path resolves
above the target root. -/
def c3Archive : Archive :=
  ⟨"1.0", "2026-02-08T02:00:00.000Z", ⟨some "Mallory", none, none, none⟩,
   .plain [], .plain [⟨["..", "evil.txt"], "attacker controlled", "T3"⟩], [], none⟩

/-- Working directory for the collector scenario: `present.key` readable,
`missing.key` absent. -/
def c9fs : FS := fun p => if p = ["present.key"] then some "secret123" else none

/-- Target directory for the version-gate witness. -/
def c10fs : FS := fun p => if p = ["keep.md"] then some "keep" else none

/-- An archive carrying an unsupported version. -/
def c10Archive : Archive :=
  ⟨"2.0", "T10", ⟨some "Old", none, none, none⟩,
   .plain [⟨["keep.md"], "clobber", "T10"⟩], .plain [], [], none⟩

/-! ## Claims -/

/-- C2 (code bug): `export` with encryption requested but no password (or an
empty one) does not fail — `if (this.encryption && this.password)` silently
skips encryption, and export returns a plain archive with the `encrypted`
flag absent and the credentials stored in clear. -/
theorem C2_encrypt_without_password_silently_plain :
    ((⟨true, none⟩ : AgentBackup).exportBackup c2fs "T2"
        ⟨some "TestAgent", none, [], [["secret.key"]], []⟩
        "iv1" "s1" "iv2" "s2").encrypted = none ∧
    ((⟨true, none⟩ : AgentBackup).exportBackup c2fs "T2"
        ⟨some "TestAgent", none, [], [["secret.key"]], []⟩
        "iv1" "s1" "iv2" "s2").credentials =
      .plain [⟨["secret.key"], "supersecret", "T2"⟩] ∧
    ((⟨true, some ""⟩ : AgentBackup).exportBackup c2fs "T2"
        ⟨some "TestAgent", none, [], [["secret.key"]], []⟩
        "iv1" "s1" "iv2" "s2").encrypted = none :=
  ⟨rfl, rfl, rfl⟩

/-- C3 (code bug): a stored relative path beginning with `..` resolves
outside the target root, yet `import` raises no per-file error and writes
the file there — the path-escape check the spec requires is absent. -/
theorem C3_import_writes_outside_target_root :
    escapesRoot (normRel ["..", "evil.txt"]) = true ∧
    ((⟨false, none⟩ : AgentBackup).importBackup c3Archive false emptyFS).1
        ["..", "evil.txt"] = some "attacker controlled" ∧
    ((⟨false, none⟩ : AgentBackup).importBackup c3Archive false emptyFS).2 =
      .ok ⟨⟨some "Mallory", none, none, none⟩, 0, 1⟩ :=
  ⟨rfl, rfl, rfl⟩

/-- C5 (code bug): `export` performs no identity validation — with an empty
(or absent) `name` it still returns a completed archive instead of failing
with a `ValidationError`. -/
theorem C5_export_accepts_empty_name :
    ((⟨false, none⟩ : AgentBackup).exportBackup emptyFS "T5"
        ⟨some "", none, [], [], []⟩ "" "" "" "").version = "1.0" ∧
    ((⟨false, none⟩ : AgentBackup).exportBackup emptyFS "T5"
        ⟨some "", none, [], [], []⟩ "" "" "" "").agent.name = some "" ∧
    ((⟨false, none⟩ : AgentBackup).exportBackup emptyFS "T5"
        ⟨none, none, [], [], []⟩ "" "" "" "").agent.name = none :=
  ⟨rfl, rfl, rfl⟩

/-- C4 counterexample: importing `c4Archive` into a target already holding
`existing.md` with `overwrite` false writes nothing (the filesystem is
returned unchanged), yet the result reports `restored.memory = 1` — the
count reflects the archive's record list, not the files written. -/
theorem C4_restored_counts_counterexample :
    ((⟨false, none⟩ : AgentBackup).importBackup c4Archive false c4fs).1 = c4fs ∧
    ((⟨false, none⟩ : AgentBackup).importBackup c4Archive false c4fs).2 =
      .ok ⟨⟨some "Test", none, none, none⟩, 0, 1⟩ :=
  ⟨rfl, rfl⟩

/-- C4 (amended): on every successful import — of a plain archive, whose
sections pass through the decrypt phase unchanged, or of an encrypted one,
whose sections it decrypts — the returned counts equal the number of file
records in the post-decryption credentials and memory sections
(`files?.length || 0`), counting records that were skipped because the
file already existed and `overwrite` was false. -/
theorem C4_restored_counts_amended (self : AgentBackup) (a : Archive)
    (ov : Bool) (fs : FS) (r : ImportResult) (credSec memSec : FileSection)
    (hdec : decryptPhase self a = .ok (credSec, memSec))
    (hok : (self.importBackup a ov fs).2 = .ok r) :
    r.restoredCredentials = jsFilesCount credSec ∧
    r.restoredMemory = jsFilesCount memSec := by
  unfold AgentBackup.importBackup at hok
  by_cases hv : a.version ≠ BACKUP_VERSION
  · rw [if_pos hv] at hok
    cases hok
  · rw [if_neg hv, hdec] at hok
    simp only [] at hok
    cases hok
    exact ⟨rfl, rfl⟩

/-- An honestly encrypted archive whose decrypted credentials record
collides with the existing `existing.md`, for the C4 amended witness. -/
def c4EncArchive : Archive :=
  ⟨"1.0", "T4e", ⟨some "Test", none, none, none⟩,
   .enc ((⟨true, some "pw"⟩ : AgentBackup)._encrypt "i1" "s1"
     [⟨["existing.md"], "new content", "T4e"⟩]),
   .enc ((⟨true, some "pw"⟩ : AgentBackup)._encrypt "i2" "s2" []),
   [], some true⟩

/-- C4 amended, witnessed on an encrypted archive imported over an existing
file with `overwrite` false: the reported counts are 1 credential and 0
memory records — the decrypted sections' record counts — even though that
one record was skipped. -/
theorem C4_restored_counts_amended_witness :
    (⟨⟨some "Test", none, none, none⟩, 1, 0⟩ : ImportResult).restoredCredentials
        = jsFilesCount (.plain [⟨["existing.md"], "new content", "T4e"⟩]) ∧
    (⟨⟨some "Test", none, none, none⟩, 1, 0⟩ : ImportResult).restoredMemory
        = jsFilesCount (.plain []) :=
  C4_restored_counts_amended ⟨false, some "pw"⟩ c4EncArchive false c4fs _
    (.plain [⟨["existing.md"], "new content", "T4e"⟩]) (.plain []) rfl rfl

/-- C9: the Collector yields exactly one record per readable path, in input
order, and one warning per unreadable path, never failing; in particular
collecting `present.key` and the absent `missing.key` yields one record
plus one warning, and export still succeeds with that single-record
section. -/
theorem C9_collector_skips_unreadable :
    (∀ (fs : FS) (now : String) (paths : List PathC),
      (AgentBackup._collectCredentials fs now paths).1 =
        (paths.filterMap fun p => (fs (normRel p)).map fun c => ⟨p, c, now⟩) ∧
      (AgentBackup._collectMemory fs now paths).1 =
        (paths.filterMap fun p => (fs (normRel p)).map fun c => ⟨p, c, now⟩) ∧
      (AgentBackup._collectCredentials fs now paths).2 =
        (paths.filterMap fun p =>
          match fs (normRel p) with
          | some _ => none
          | none => some ("Failed to read credential: " ++ rawPathString p))) ∧
    ((AgentBackup._collectCredentials c9fs "T9" [["present.key"], ["missing.key"]]).1 =
        [⟨["present.key"], "secret123", "T9"⟩] ∧
     (AgentBackup._collectCredentials c9fs "T9" [["present.key"], ["missing.key"]]).2 =
        ["Failed to read credential: missing.key"] ∧
     ((⟨false, none⟩ : AgentBackup).exportBackup c9fs "T9"
        ⟨some "TestAgent", none, [], [["present.key"], ["missing.key"]], []⟩
        "" "" "" "").credentials = .plain [⟨["present.key"], "secret123", "T9"⟩]) := by
  refine ⟨fun fs now paths =>
    ⟨collectText_records fs now _ paths, collectText_records fs now _ paths,
     collectText_warnings fs now _ paths⟩, by decide, by decide, by decide⟩

/-- C10: `import` is atomic with respect to its fatal errors — whenever it
returns an error (unsupported version, missing password, or a decryption
failure of either section), the target filesystem is returned unchanged,
because all those checks complete before the first restore write. -/
theorem C10_import_atomic_on_fatal_errors (self : AgentBackup) (a : Archive)
    (ov : Bool) (fs : FS) (e : ImportError)
    (h : (self.importBackup a ov fs).2 = .error e) :
    (self.importBackup a ov fs).1 = fs := by
  unfold AgentBackup.importBackup at h ⊢
  by_cases hv : a.version ≠ BACKUP_VERSION
  · rw [if_pos hv]
  · rw [if_neg hv] at h ⊢
    cases hd : decryptPhase self a with
    | error e2 => rfl
    | ok pair =>
      obtain ⟨credSec, memSec⟩ := pair
      rw [hd] at h
      simp at h

/-- C10 witnessed at a concrete fatal failure: importing a version-`2.0`
archive into a nonempty target leaves the target untouched. -/
theorem C10_import_atomic_on_fatal_errors_witness :
    ((⟨false, none⟩ : AgentBackup).importBackup c10Archive false c10fs).1 = c10fs :=
  C10_import_atomic_on_fatal_errors ⟨false, none⟩ c10Archive false c10fs
    (.unsupportedVersion "2.0") rfl

/-- `export` when `this.encryption && this.password` is truthy: both
sections are replaced by their encryptions and the `encrypted` flag is
set. -/
theorem exportBackup_encrypting (self : AgentBackup) (fs : FS) (now : String)
    (args : ExportArgs) (ivC saltC ivM saltM : String)
    (h : (self.encryption && truthyStr self.password) = true) :
    self.exportBackup fs now args ivC saltC ivM saltM =
      { version := BACKUP_VERSION, exported := now,
        agent := { name := args.name, email := args.email,
                   metadata := some args.metadata,
                   created := some (match args.metadata.lookup "created" with
                     | some c => if c = "" then now else c
                     | none => now) },
        credentials := .enc (self._encrypt ivC saltC
          (AgentBackup._collectCredentials fs now args.credentialsPaths).1),
        memory := .enc (self._encrypt ivM saltM
          (AgentBackup._collectMemory fs now args.memoryPaths).1),
        platforms := [], encrypted := some true } := by
  simp only [AgentBackup.exportBackup, h, if_true]

/-- Restoring the two collected sections into an empty target yields each
readable input file's content at its normalised relative path. -/
theorem roundtrip_restore (src : FS) (now : String) (cps mps : List PathC)
    (p : PathC) (hp : p ∈ cps ∨ p ∈ mps) (c : String)
    (hsrc : src (normRel p) = some c) :
    restoreSection false
      (restoreSection false emptyFS
        (AgentBackup._collectCredentials src now cps).1)
      (AgentBackup._collectMemory src now mps).1 (normRel p) = some c := by
  set cf := (AgentBackup._collectCredentials src now cps).1 with hcf
  set mf := (AgentBackup._collectMemory src now mps).1 with hmf
  have hfc : ∀ f ∈ cf, src (normRel f.path) = some f.content :=
    collectText_content src now _ cps
  have hfm : ∀ f ∈ mf, src (normRel f.path) = some f.content :=
    collectText_content src now _ mps
  have inv1 := restoreSection_agree false src cf emptyFS hfc
    (fun _ => Or.inl rfl)
  have inv2 := restoreSection_agree false src mf _ hfm inv1
  have hsome :
      ((restoreSection false (restoreSection false emptyFS cf) mf)
        (normRel p)).isSome := by
    rcases hp with hp | hp
    · apply restoreSection_isSome_mono
      exact restoreSection_mem_isSome false cf emptyFS ⟨p, c, now⟩
        (collectText_mem src now _ cps p c hp hsrc)
    · exact restoreSection_mem_isSome false mf _ ⟨p, c, now⟩
        (collectText_mem src now _ mps p c hp hsrc)
  rcases inv2 (normRel p) with hn | hg
  · rw [hn] at hsome
    cases hsome
  · rw [hg, hsrc]

/-- C1: exporting any identity with any set of readable input files and
importing the resulting archive into an empty target directory — with the
same password when encryption is used — succeeds and reproduces each
readable input file's exact content at its (normalised) relative path, for
both the unencrypted and the encrypted pipeline. -/
theorem C1_export_import_roundtrip (src : FS) (now : String)
    (args : ExportArgs) (encPw : Option String) (ivC saltC ivM saltM : String)
    (hpw : ∀ s, encPw = some s → s ≠ "")
    (p : PathC) (hp : p ∈ args.credentialsPaths ∨ p ∈ args.memoryPaths)
    (c : String) (hsrc : src (normRel p) = some c) :
    (∃ r, ((⟨false, encPw⟩ : AgentBackup).importBackup
        ((⟨encPw.isSome, encPw⟩ : AgentBackup).exportBackup src now args
          ivC saltC ivM saltM) false emptyFS).2 = .ok r) ∧
    ((⟨false, encPw⟩ : AgentBackup).importBackup
        ((⟨encPw.isSome, encPw⟩ : AgentBackup).exportBackup src now args
          ivC saltC ivM saltM) false emptyFS).1 (normRel p) = some c := by
  cases encPw with
  | none =>
    rw [importBackup_plain_eq (⟨false, none⟩ : AgentBackup)
        ((⟨(none : Option String).isSome, none⟩ : AgentBackup).exportBackup
          src now args ivC saltC ivM saltM) false emptyFS
        (AgentBackup._collectCredentials src now args.credentialsPaths).1
        (AgentBackup._collectMemory src now args.memoryPaths).1
        rfl rfl rfl rfl]
    exact ⟨⟨_, rfl⟩, roundtrip_restore src now _ _ p hp c hsrc⟩
  | some pw =>
    have hpwne : pw ≠ "" := hpw pw rfl
    have hcond : ((⟨(some pw).isSome, some pw⟩ : AgentBackup).encryption &&
        truthyStr (⟨(some pw).isSome, some pw⟩ : AgentBackup).password) = true := by
      simp [truthyStr, hpwne]
    have hexp := exportBackup_encrypting ⟨(some pw).isSome, some pw⟩ src now args
      ivC saltC ivM saltM hcond
    rw [importBackup_enc_eq (⟨false, some pw⟩ : AgentBackup)
        (⟨(some pw).isSome, some pw⟩ : AgentBackup)
        ((⟨(some pw).isSome, some pw⟩ : AgentBackup).exportBackup
          src now args ivC saltC ivM saltM) false emptyFS
        (AgentBackup._collectCredentials src now args.credentialsPaths).1
        (AgentBackup._collectMemory src now args.memoryPaths).1
        ivC saltC ivM saltM (by rw [hexp]) (by rw [hexp]; rfl)
        (by simp [truthyStr, hpwne]) rfl (by rw [hexp]) (by rw [hexp])]
    exact ⟨⟨_, rfl⟩, roundtrip_restore src now _ _ p hp c hsrc⟩

/-- Source directory for the round-trip witness. -/
def c1fs : FS := fun p =>
  if p = ["cred.key"] then some "secret123"
  else if p = ["memory.md"] then some "# Memory" else none

/-- Export arguments for the round-trip witness. -/
def c1args : ExportArgs :=
  ⟨some "TestAgent", some "t@example.com", [], [["cred.key"]], [["memory.md"]]⟩

/-- C1 witnessed on the encrypted pipeline at a concrete identity and
filesystem: the imported target holds the original credential bytes. -/
theorem C1_export_import_roundtrip_witness :
    (∃ r, ((⟨false, some "pw"⟩ : AgentBackup).importBackup
        ((⟨(some "pw").isSome, some "pw"⟩ : AgentBackup).exportBackup c1fs "T1" c1args
          "i1" "s1" "i2" "s2") false emptyFS).2 = .ok r) ∧
    ((⟨false, some "pw"⟩ : AgentBackup).importBackup
        ((⟨(some "pw").isSome, some "pw"⟩ : AgentBackup).exportBackup c1fs "T1" c1args
          "i1" "s1" "i2" "s2") false emptyFS).1 (normRel ["cred.key"]) =
      some "secret123" :=
  C1_export_import_roundtrip c1fs "T1" c1args (some "pw") "i1" "s1" "i2" "s2"
    (fun s h => by cases h; decide) ["cred.key"] (Or.inl (by decide))
    "secret123" (by decide)

/-- C7: importing into a target whose file at a record's resolved location
holds content `A`, while the archive's matching record(s) carry content
`B`: with `overwrite` false the file keeps `A`; with `overwrite` true it
becomes `B`. -/
theorem C7_overwrite_protection (self : AgentBackup) (a : Archive) (fs : FS)
    (loc : PathC) (A B : String) (cf mf : List FileRecord)
    (hver : a.version = BACKUP_VERSION) (henc : isTruthy a.encrypted = false)
    (hc : a.credentials = .plain cf) (hm : a.memory = .plain mf)
    (hex : fs loc = some A)
    (hmatch : ∃ f ∈ cf ++ mf, normRel f.path = loc)
    (hall : ∀ f ∈ cf ++ mf, normRel f.path = loc → f.content = B) :
    (self.importBackup a false fs).1 loc = some A ∧
    (self.importBackup a true fs).1 loc = some B := by
  rw [importBackup_plain_eq self a false fs cf mf hver henc hc hm,
      importBackup_plain_eq self a true fs cf mf hver henc hc hm]
  constructor
  · show restoreSection false (restoreSection false fs cf) mf loc = some A
    have h1 : restoreSection false fs cf loc = fs loc :=
      restoreSection_skip cf fs loc (by rw [hex]; rfl)
    have h2 : restoreSection false (restoreSection false fs cf) mf loc =
        restoreSection false fs cf loc :=
      restoreSection_skip mf _ loc (by rw [h1, hex]; rfl)
    rw [h2, h1, hex]
  · show restoreSection true (restoreSection true fs cf) mf loc = some B
    by_cases hmm2 : ∃ f ∈ mf, normRel f.path = loc
    · exact restoreSection_overwrite_wins mf _ loc B hmm2
        (fun f hf h => hall f (List.mem_append_right _ hf) h)
    · rw [restoreSection_frame true mf _ loc (fun f hf hq => hmm2 ⟨f, hf, hq⟩)]
      rcases hmatch with ⟨f, hf, hloc⟩
      rcases List.mem_append.mp hf with hcf2 | hmf2
      · exact restoreSection_overwrite_wins cf fs loc B ⟨f, hcf2, hloc⟩
          (fun g hg h => hall g (List.mem_append_left _ hg) h)
      · exact absurd ⟨f, hmf2, hloc⟩ hmm2

/-- Target directory for the overwrite witness. -/
def c7fs : FS := fun p => if p = ["existing.md"] then some "original content" else none

/-- Archive whose only record collides with the target's `existing.md`. -/
def c7Archive : Archive :=
  ⟨"1.0", "T7", ⟨some "Test", none, none, none⟩, .plain [],
   .plain [⟨["existing.md"], "new content", "T7"⟩], [], none⟩

/-- C7 witnessed at the repo's own overwrite-protection scenario. -/
theorem C7_overwrite_protection_witness :
    ((⟨false, none⟩ : AgentBackup).importBackup c7Archive false c7fs).1
        ["existing.md"] = some "original content" ∧
    ((⟨false, none⟩ : AgentBackup).importBackup c7Archive true c7fs).1
        ["existing.md"] = some "new content" :=
  C7_overwrite_protection ⟨false, none⟩ c7Archive c7fs ["existing.md"]
    "original content" "new content" [] [⟨["existing.md"], "new content", "T7"⟩]
    rfl rfl rfl rfl (by decide)
    ⟨⟨["existing.md"], "new content", "T7"⟩, by decide, by decide⟩
    (by decide)

/-- Unfolding `_decrypt` on an encrypted-form section. -/
theorem decrypt_enc_eq (self : AgentBackup) (e : EncSection) :
    self._decrypt (.enc e) =
      if e.data.key = AgentBackup._deriveKey (self.password.getD "") e.salt ∧
         e.authTag = ⟨AgentBackup._deriveKey (self.password.getD "") e.salt,
                      e.iv, e.data⟩ then
        .ok (.plain e.data.files)
      else .error .decryptFailed := rfl

/-- When the archive is marked encrypted, the password is truthy, and the
credentials section fails to decrypt, the decrypt phase fails with that
error (before the memory section is even attempted). -/
theorem decryptPhase_enc_error (self : AgentBackup) (a : Archive)
    (henc : isTruthy a.encrypted = true) (hpw : truthyStr self.password = true)
    (e : ImportError) (hdec : self._decrypt a.credentials = .error e) :
    decryptPhase self a = .error e := by
  unfold decryptPhase
  rw [if_pos henc, if_pos hpw, hdec]

/-- C6: decrypting an honestly encrypted archive with any password other
than the export password fails, surfacing from `import` as the decryption
error with the target filesystem untouched; tampering with the `authTag`,
`iv`, `salt` or ciphertext field of an honest encrypted section likewise
fails under the correct password; and this error is distinguishable from
the missing-password and unsupported-version errors.  (Hex-level
malformation sits below the symbolic ciphertext model; every change it
could cause to the decoded fields is covered by the tampering cases.) -/
theorem C6_wrong_password_or_tamper_is_decryption_error :
    (∀ (pw pw2 : String), pw2 ≠ pw → pw2 ≠ "" →
      ∀ (exporter : AgentBackup), exporter.password = some pw →
      ∀ (ivC saltC ivM saltM exported : String) (ag : Agent)
        (cf mf : List FileRecord) (plat : List (String × String))
        (ov : Bool) (fs : FS),
      (⟨false, some pw2⟩ : AgentBackup).importBackup
          ⟨BACKUP_VERSION, exported, ag,
           .enc (exporter._encrypt ivC saltC cf),
           .enc (exporter._encrypt ivM saltM mf), plat, some true⟩ ov fs
        = (fs, .error .decryptFailed)) ∧
    (∀ (self : AgentBackup) (iv salt : String) (files : List FileRecord),
      (∀ tag, tag ≠ (self._encrypt iv salt files).authTag →
        self._decrypt (.enc { self._encrypt iv salt files with authTag := tag }) =
          .error .decryptFailed) ∧
      (∀ iv2, iv2 ≠ iv →
        self._decrypt (.enc { self._encrypt iv salt files with iv := iv2 }) =
          .error .decryptFailed) ∧
      (∀ salt2, salt2 ≠ salt →
        self._decrypt (.enc { self._encrypt iv salt files with salt := salt2 }) =
          .error .decryptFailed) ∧
      (∀ d, d ≠ (self._encrypt iv salt files).data →
        self._decrypt (.enc { self._encrypt iv salt files with data := d }) =
          .error .decryptFailed)) ∧
    (ImportError.decryptFailed ≠ ImportError.missingPassword ∧
     ∀ v, ImportError.decryptFailed ≠ ImportError.unsupportedVersion v) := by
  refine ⟨?_, ?_, by simp, fun v => by simp⟩
  · intro pw pw2 hne hne2 exporter hpw ivC saltC ivM saltM exported ag cf mf
      plat ov fs
    have hne3 : ¬(pw = pw2) := fun h => hne h.symm
    have hdec : (⟨false, some pw2⟩ : AgentBackup)._decrypt
        (.enc (exporter._encrypt ivC saltC cf)) = .error .decryptFailed := by
      simp [decrypt_enc_eq, AgentBackup._encrypt, AgentBackup._deriveKey, hpw,
        hne3]
    unfold AgentBackup.importBackup
    rw [if_neg (by simp),
        decryptPhase_enc_error (⟨false, some pw2⟩ : AgentBackup)
          ⟨BACKUP_VERSION, exported, ag, .enc (exporter._encrypt ivC saltC cf),
           .enc (exporter._encrypt ivM saltM mf), plat, some true⟩ rfl
          (by simp [truthyStr, hne2]) _ hdec]
  · intro self iv salt files
    refine ⟨?_, ?_, ?_, ?_⟩
    · intro tag htag
      rw [decrypt_enc_eq, if_neg (fun h => htag h.2)]
    · intro iv2 hiv
      rw [decrypt_enc_eq, if_neg (fun h =>
        hiv (congrArg GcmTag.iv h.2).symm)]
    · intro salt2 hsalt
      rw [decrypt_enc_eq, if_neg (fun h =>
        hsalt (congrArg DerivedKey.saltHex h.1).symm)]
    · intro d hd
      rw [decrypt_enc_eq, if_neg (fun h =>
        hd (congrArg GcmTag.ciphertext h.2).symm)]

/-- C6 witnessed at a concrete wrong password: importing an archive
encrypted under `aaa` with password `bbb` yields the decryption error and
leaves the empty target empty. -/
theorem C6_wrong_password_witness :
    (⟨false, some "bbb"⟩ : AgentBackup).importBackup
        ⟨BACKUP_VERSION, "T6", ⟨some "SecureAgent", none, none, none⟩,
         .enc ((⟨true, some "aaa"⟩ : AgentBackup)._encrypt "i1" "s1"
           [⟨["secret.key"], "encrypted-data", "T6"⟩]),
         .enc ((⟨true, some "aaa"⟩ : AgentBackup)._encrypt "i2" "s2" []),
         [], some true⟩ false emptyFS
      = (emptyFS, .error .decryptFailed) :=
  C6_wrong_password_or_tamper_is_decryption_error.1 "aaa" "bbb" (by decide)
    (by decide) ⟨true, some "aaa"⟩ rfl "i1" "s1" "i2" "s2" "T6"
    ⟨some "SecureAgent", none, none, none⟩
    [⟨["secret.key"], "encrypted-data", "T6"⟩] [] [] false emptyFS

/-- Repo-test archive: agent `Agent1`, exported at 02:00. -/
def c8ArchiveA : Archive :=
  ⟨"1.0", "2026-02-08T02:00:00.000Z",
   ⟨some "Agent1", some "a@example.com", none, none⟩, .plain [], .plain [], [], none⟩

/-- Same agent as `c8ArchiveA`, exported one hour later. -/
def c8ArchiveB : Archive :=
  ⟨"1.0", "2026-02-08T03:00:00.000Z",
   ⟨some "Agent1", some "a@example.com", none, none⟩, .plain [], .plain [], [], none⟩

/-- Same agent and exported instant as `c8ArchiveA` but different file
contents and encrypted flag. -/
def c8ArchiveC : Archive :=
  ⟨"1.0", "2026-02-08T02:00:00.000Z",
   ⟨some "Agent1", some "a@example.com", none, none⟩,
   .plain [⟨["x.key"], "different contents", "T8"⟩], .plain [], [], some true⟩

set_option maxRecDepth 8192 in
/-- C8: `fingerprint` reads exactly `{agent, exported}` — any two archives
agreeing on those two fields fingerprint identically whatever their file
contents or `encrypted` flag (and the function is deterministic); and at
the repository's own test vectors, changing `exported` alone changes the
fingerprint. -/
theorem C8_fingerprint_depends_only_on_identity_and_exported :
    (∀ a b : Archive, a.agent = b.agent → a.exported = b.exported →
      AgentBackup.fingerprint a = AgentBackup.fingerprint b) ∧
    AgentBackup.fingerprint c8ArchiveA ≠ AgentBackup.fingerprint c8ArchiveB := by
  constructor
  · intro a b hag hex
    unfold AgentBackup.fingerprint fingerprintInput
    rw [hag, hex]
  · decide

/-- C8 witnessed at concrete archives differing in file contents and the
encrypted flag but not in `{agent, exported}`: equal fingerprints. -/
theorem C8_fingerprint_witness :
    AgentBackup.fingerprint c8ArchiveA = AgentBackup.fingerprint c8ArchiveC :=
  C8_fingerprint_depends_only_on_identity_and_exported.1 c8ArchiveA c8ArchiveC
    rfl rfl
